import Mathlib

/-!
# groob/finalizer: the finalizing middleware and its access logger

A shallow embedding of `finalizer.go` (package `finalizer`) and
`logutil/logutil.go` (package `logutil`), together with the small part of the
Go runtime and standard library the two files lean on:

* `Go.Any`, `Go.context`: interface values with a dynamic type, contexts as
  chains of key/value pairs, comma-ok type assertions;
* `Go.http`: header maps, requests, and a response sink that records every
  call it receives, answers `Write` from an arbitrary reply function and may
  rewrite its own header map on every call;
* `Go.net.SplitHostPort`: transcribed from the standard library;
* `Go.Prog`: what a handler does with the writer it is given, as a tree of
  calls whose continuation may depend on what each `Write` returned, ending
  in a normal return or in a panic;
* `Go.withDefer`: a function body followed by its deferred call.

Machine integers are `Int`; the 64 bit counter wraps through `wrapInt64`.

What is taken from the environment: contexts and writers are non-nil; a call
on the sink returns (a sink that panics is outside the model); a handler works
on the writer it is given and does not write through the request pointer; the
finalizer callback acts on a state of its own and returns or panics; one
request is served by one flow of control.
-/

set_option autoImplicit false

namespace Go

/-! ## Runtime values -/

/-- Go `[]byte`. -/
abbrev Bytes := List UInt8

/-- Go `error` as returned by a sink: `none` is `nil`. -/
abbrev Error := Option String

/-- Two's complement reduction of an integer to the range of `int64`. -/
def wrapInt64 (x : Int) : Int := (x + 2 ^ 63) % 2 ^ 64 - 2 ^ 63

/-- Largest `int64`. -/
def maxInt64 : Int := 2 ^ 63 - 1

/-- Smallest `int64`. -/
def minInt64 : Int := -(2 ^ 63)

/-- How a call ends: it returns, or it panics with a value. -/
inductive Outcome
  | returned
  | panicked (v : String)
  deriving DecidableEq

namespace http

/-- Go `http.Header`, a `map[string][]string`; the nil map is the empty list. -/
abbrev Header := List (String × List String)

/-- The assignment `h[key] = vals`. -/
def Header.Set (h : Header) (key : String) (vals : List String) : Header :=
  (key, vals) :: h.filter (fun e => e.1 ≠ key)

/-- The statement `delete(h, key)`. -/
def Header.Del (h : Header) (key : String) : Header :=
  h.filter (fun e => e.1 ≠ key)

/-- Go `Header.Get` for a key already in canonical form: the first value, or
the empty string. -/
def Header.Get (h : Header) (key : String) : String :=
  match List.lookup key h with
  | some (v :: _) => v
  | _ => ""

/-- Go `http.StatusOK`. -/
def StatusOK : Int := 200

end http

/-- Go interface values (`any`), tagged with their dynamic type. -/
inductive Any
  | nil
  | Header (h : http.Header)
  | int (n : Int)
  | int64 (n : Int)
  | string (s : String)
  | other (typ : String)
  deriving DecidableEq

/-- The type assertion `v.(http.Header)` in comma-ok form. -/
def Any.assertHeader : Any → http.Header × Bool
  | .Header h => (h, true)
  | _ => ([], false)

/-- The type assertion `v.(int)` in comma-ok form. -/
def Any.assertInt : Any → Int × Bool
  | .int n => (n, true)
  | _ => (0, false)

namespace context

/-- Context keys: interface values compared with `==`, so by dynamic type and
value. `contextKey n` are the values of the unexported type
`finalizer.contextKey`; every other key has another dynamic type. -/
inductive Key
  | contextKey (n : Int)
  | other (typ : String) (repr : String)
  deriving DecidableEq

/-- Go `context.Context`, restricted to what carries values. -/
inductive Context
  | Background
  | valueCtx (parent : Context) (key : Key) (val : Any)
  deriving DecidableEq

/-- Go `context.WithValue`. -/
def WithValue (parent : Context) (key : Key) (val : Any) : Context :=
  .valueCtx parent key val

/-- Go `ctx.Value(key)`: the innermost value attached under `key`, else nil. -/
def Context.Value : Context → Key → Any
  | .Background, _ => Any.nil
  | .valueCtx parent k v, key => if k = key then v else parent.Value key

end context

namespace http

/-- Go `*http.Request`, the fields the two packages read. -/
structure Request where
  Method : String
  Proto : String
  RemoteAddr : String
  Header : Header
  ctx : context.Context
  deriving DecidableEq

/-- Go `r.Context()`. -/
def Request.Context (r : Request) : context.Context := r.ctx

/-- Go `r.UserAgent()`. -/
def Request.UserAgent (r : Request) : String := Header.Get r.Header "User-Agent"

/-- Go `r.Referer()`. -/
def Request.Referer (r : Request) : String := Header.Get r.Header "Referer"

/-- What a response sink has received: the calls made on it, with what it
answered, and the assignments made to the map its `Header()` returns. -/
inductive Event
  | WriteHeader (code : Int)
  | Write (p : Bytes) (n : Int) (err : Error)
  | HeaderSet (key : String) (vals : List String)
  | HeaderDel (key : String)
  deriving DecidableEq

/-- Go `http.ResponseWriter`: the underlying sink. It keeps the header map it
hands out, the events it received in order, answers `Write` with a count and
an error that may depend on everything received so far, and on each call may
rewrite its header map (`touch`, given the events up to and including that
call), as a recorder that fills in `Content-Type` or a compressing writer that
drops `Content-Length` does. -/
structure ResponseWriter where
  hdr : Header
  events : List Event
  reply : List Event → Bytes → Int × Error
  touch : List Event → Header → Header

/-- Go `w.Header()`. -/
def ResponseWriter.Header (w : ResponseWriter) : Header := w.hdr

/-- Go `w.WriteHeader(code)` on the sink. -/
def ResponseWriter.WriteHeader (w : ResponseWriter) (code : Int) : ResponseWriter :=
  let events := w.events ++ [Event.WriteHeader code]
  { w with hdr := w.touch events w.hdr, events := events }

/-- Go `w.Write(p)` on the sink. -/
def ResponseWriter.Write (w : ResponseWriter) (p : Bytes) : (Int × Error) × ResponseWriter :=
  let a := w.reply w.events p
  let events := w.events ++ [Event.Write p a.1 a.2]
  (a, { w with hdr := w.touch events w.hdr, events := events })

/-- The assignment `w.Header()[key] = vals` on the sink's map. -/
def ResponseWriter.HeaderSet (w : ResponseWriter) (key : String) (vals : List String) :
    ResponseWriter :=
  { w with hdr := w.hdr.Set key vals, events := w.events ++ [Event.HeaderSet key vals] }

/-- The statement `delete(w.Header(), key)` on the sink's map. -/
def ResponseWriter.HeaderDel (w : ResponseWriter) (key : String) : ResponseWriter :=
  { w with hdr := w.hdr.Del key, events := w.events ++ [Event.HeaderDel key] }

end http

namespace net

/-- Why `SplitHostPort` rejects an address (`net.AddrError`). -/
inductive AddrError
  | missingPort
  | tooManyColons
  | missingCloseBracket
  | unexpectedOpenBracket
  | unexpectedCloseBracket
  deriving DecidableEq

/-- Go `bytealg.IndexByteString`: position of the first `c`; `none` is -1. -/
def IndexByte : List Char → Char → Option Nat
  | [], _ => none
  | x :: xs, c => if x = c then some 0 else (IndexByte xs c).map (· + 1)

/-- Go `bytealg.LastIndexByteString`: position of the last `c`; `none` is -1. -/
def LastIndexByte : List Char → Char → Option Nat
  | [], _ => none
  | x :: xs, c =>
    match LastIndexByte xs c with
    | some i => some (i + 1)
    | none => if x = c then some 0 else none

/-- The tail of Go `net.SplitHostPort`, after the host has been cut out:
`s` is the address, `i` the position of the last colon, `j` and `k` the
positions from which no opening, respectively closing, bracket may occur. -/
def splitTail (s : List Char) (i j k : Nat) (host : List Char) :
    Except AddrError (String × String) :=
  if (IndexByte (s.drop j) '[').isSome then .error .unexpectedOpenBracket
  else if (IndexByte (s.drop k) ']').isSome then .error .unexpectedCloseBracket
  else .ok (String.mk host, String.mk (s.drop (i + 1)))

/-- Go `net.SplitHostPort` (standard library), on the characters of the
address. The three delimiters are ASCII, so cutting at characters and cutting
at bytes give the same pieces. -/
def SplitHostPort (hostport : String) : Except AddrError (String × String) :=
  let s := hostport.data
  match LastIndexByte s ':' with
  | none => .error .missingPort
  | some i =>
    if s.head? = some '[' then
      match IndexByte s ']' with
      | none => .error .missingCloseBracket
      | some e =>
        if e + 1 = s.length then .error .missingPort
        else if e + 1 = i then splitTail s i 1 (e + 1) ((s.take e).drop 1)
        else if s.get? (e + 1) = some ':' then .error .tooManyColons
        else .error .missingPort
    else
      let host := s.take i
      if (IndexByte host ':').isSome then .error .tooManyColons
      else splitTail s i 0 0 host

end net

/-! ## Handlers -/

/-- The method table of a value used as an `http.ResponseWriter`, over its
state `ω`. `HeaderSet` and `HeaderDel` are the effect on that value of an
assignment to, or a deletion from, the map its `Header()` returns. -/
structure Writer (ω : Type) where
  Header : ω → http.Header
  Write : ω → Bytes → (Int × Error) × ω
  WriteHeader : ω → Int → ω
  HeaderSet : ω → String → List String → ω
  HeaderDel : ω → String → ω

/-- What a handler does with the writer it is given: a tree of calls, each
continuation depending on what the call returned, ending in a normal return
or in a panic. -/
inductive Prog
  | ret
  | panic (v : String)
  | WriteHeader (code : Int) (k : Prog)
  | Write (p : Bytes) (k : Int → Error → Prog)
  | Header (k : http.Header → Prog)
  | HeaderSet (key : String) (vals : List String) (k : Prog)
  | HeaderDel (key : String) (k : Prog)

/-- Result of running a handler: how it ended, the writer afterwards, and the
calls the handler made on the writer, in order, with what each returned. -/
structure Run (ω : Type) where
  outcome : Outcome
  w : ω
  trace : List http.Event

/-- Run a handler body against a writer. -/
def Prog.exec {ω : Type} (W : Writer ω) : Prog → ω → Run ω
  | .ret, w => ⟨.returned, w, []⟩
  | .panic v, w => ⟨.panicked v, w, []⟩
  | .WriteHeader code k, w =>
    let r := k.exec W (W.WriteHeader w code)
    { r with trace := http.Event.WriteHeader code :: r.trace }
  | .Write p k, w =>
    let a := W.Write w p
    let r := (k a.1.1 a.1.2).exec W a.2
    { r with trace := http.Event.Write p a.1.1 a.1.2 :: r.trace }
  | .Header k, w => (k (W.Header w)).exec W w
  | .HeaderSet key vals k, w =>
    let r := k.exec W (W.HeaderSet w key vals)
    { r with trace := http.Event.HeaderSet key vals :: r.trace }
  | .HeaderDel key k, w =>
    let r := k.exec W (W.HeaderDel w key)
    { r with trace := http.Event.HeaderDel key :: r.trace }

/-- The arguments of the `WriteHeader` calls in a trace, in order. -/
def codesOf (tr : List http.Event) : List Int :=
  tr.filterMap fun e => match e with
    | .WriteHeader code => some code
    | _ => none

/-- The argument of the last `WriteHeader` call in a trace, if there is one. -/
def lastWriteHeader (tr : List http.Event) : Option Int := (codesOf tr).getLast?

/-- The counts returned by the `Write` calls in a trace, in order. -/
def countsOf (tr : List http.Event) : List Int :=
  tr.filterMap fun e => match e with
    | .Write _ n _ => some n
    | _ => none

/-- The header map of a sink after the events of a trace: the handler's
assignments and deletions, and what the sink itself does to the map (`touch`)
on each call it receives. `evs` are the events received before the trace. -/
def headerAfter (touch : List http.Event → http.Header → http.Header) :
    List http.Event → http.Header → List http.Event → http.Header
  | _, h, [] => h
  | evs, h, .HeaderSet key vals :: tr =>
    headerAfter touch (evs ++ [.HeaderSet key vals]) (h.Set key vals) tr
  | evs, h, .HeaderDel key :: tr =>
    headerAfter touch (evs ++ [.HeaderDel key]) (h.Del key) tr
  | evs, h, .WriteHeader code :: tr =>
    headerAfter touch (evs ++ [.WriteHeader code])
      (touch (evs ++ [.WriteHeader code]) h) tr
  | evs, h, .Write p n err :: tr =>
    headerAfter touch (evs ++ [.Write p n err]) (touch (evs ++ [.Write p n err]) h) tr

namespace http

/-- Go `http.Handler`: `ServeHTTP(w, r)` as the body it runs on `w`. -/
abbrev Handler := Request → Prog

/-- The sink itself as a writer. -/
def ResponseWriter.asWriter : Writer ResponseWriter :=
  ⟨ResponseWriter.Header, ResponseWriter.Write, ResponseWriter.WriteHeader,
    ResponseWriter.HeaderSet, ResponseWriter.HeaderDel⟩

end http

/-- A function body followed by the call it deferred: the deferred call runs
when the body returns and when it panics; a panic of the body goes on to the
caller afterwards unless the deferred call panics itself, in which case that
newer panic does. -/
def withDefer {σ : Type} (body deferred : σ → Outcome × σ) (s : σ) : Outcome × σ :=
  let b := body s
  let d := deferred b.2
  (match d.1 with
   | .panicked v => Outcome.panicked v
   | .returned => b.1, d.2)

/-! ## Package finalizer (`finalizer.go`) -/

namespace finalizer

open context

/-- Source: `contextKeyResponseHeaders contextKey = iota`, the first constant
of the block. -/
def contextKeyResponseHeaders : Key := Key.contextKey 0

/-- Source: `contextKeyResponseSize`, the second constant of the block. -/
def contextKeyResponseSize : Key := Key.contextKey 1

/-- Source: `type interceptingWriter struct`, an embedded `http.ResponseWriter`,
`code int` and `written int64`. -/
structure interceptingWriter where
  ResponseWriter : http.ResponseWriter
  code : Int
  written : Int

/-- Source: `func (w *interceptingWriter) WriteHeader(code int)`. -/
def interceptingWriter.WriteHeader (w : interceptingWriter) (code : Int) : interceptingWriter :=
  let w1 := { w with code := code }
  { w1 with ResponseWriter := w1.ResponseWriter.WriteHeader code }

/-- Source: `func (w *interceptingWriter) Write(p []byte) (int, error)`. -/
def interceptingWriter.Write (w : interceptingWriter) (p : Bytes) :
    (Int × Error) × interceptingWriter :=
  let a := w.ResponseWriter.Write p
  let n := a.1.1
  let err := a.1.2
  ((n, err), { w with ResponseWriter := a.2, written := wrapInt64 (w.written + wrapInt64 n) })

/-- The method `Header()` promoted from the embedded `http.ResponseWriter`. -/
def interceptingWriter.Header (w : interceptingWriter) : http.Header :=
  w.ResponseWriter.Header

/-- An assignment to the map returned by the promoted `Header()`: it is the
embedded sink's own map. -/
def interceptingWriter.HeaderSet (w : interceptingWriter) (key : String) (vals : List String) :
    interceptingWriter :=
  { w with ResponseWriter := w.ResponseWriter.HeaderSet key vals }

/-- A deletion from the map returned by the promoted `Header()`. -/
def interceptingWriter.HeaderDel (w : interceptingWriter) (key : String) : interceptingWriter :=
  { w with ResponseWriter := w.ResponseWriter.HeaderDel key }

/-- The `*interceptingWriter` as the `http.ResponseWriter` handed to the inner
handler (`w = iw`). -/
def interceptingWriter.asWriter : Writer interceptingWriter :=
  ⟨interceptingWriter.Header, interceptingWriter.Write, interceptingWriter.WriteHeader,
    interceptingWriter.HeaderSet, interceptingWriter.HeaderDel⟩

/-- Source: `type ServerFinalizerFunc func(ctx context.Context, code int,
r *http.Request)`. The callback acts on whatever it holds (`κ`: a logger, a
metrics store) and returns or panics. -/
abbrev ServerFinalizerFunc (κ : Type) := Context → Int → http.Request → κ → Outcome × κ

/-- The variables of the function literal returned by `Middleware` (`ctx` and
`iw`), with the calls the inner handler made on `iw` and the state `world` the
finalizer callback acts on. -/
structure Frame (κ : Type) where
  ctx : Context
  iw : interceptingWriter
  trace : List http.Event
  world : κ

/-- Source: `func Middleware(finalizer ServerFinalizerFunc, next http.Handler)
http.Handler`, applied to the sink `w` and the request `r`; `s` is the state
of the callback before the request. -/
def Middleware {κ : Type} (finalizer : ServerFinalizerFunc κ) (next : http.Handler)
    (w : http.ResponseWriter) (r : http.Request) (s : κ) : Outcome × Frame κ :=
  let ctx := r.Context
  let iw : interceptingWriter := ⟨w, http.StatusOK, 0⟩
  withDefer
    (fun f =>
      let run := (next r).exec interceptingWriter.asWriter f.iw
      (run.outcome, { f with iw := run.w, trace := f.trace ++ run.trace }))
    (fun f =>
      let ctx1 := WithValue f.ctx contextKeyResponseHeaders (Any.Header f.iw.Header)
      let ctx2 := WithValue ctx1 contextKeyResponseSize (Any.int64 f.iw.written)
      let done := finalizer ctx2 f.iw.code r f.world
      (done.1, { f with ctx := ctx2, world := done.2 }))
    ⟨ctx, iw, [], s⟩

/-- The inner handler's whole invocation under `Middleware`: `next.ServeHTTP(w, r)`
with `w` the fresh `interceptingWriter` around the sink. -/
def served (next : http.Handler) (w : http.ResponseWriter) (r : http.Request) :
    Run interceptingWriter :=
  (next r).exec interceptingWriter.asWriter ⟨w, http.StatusOK, 0⟩

/-- The context the deferred closure of `Middleware` builds once the inner
handler has ended. -/
def finalCtx (next : http.Handler) (w : http.ResponseWriter) (r : http.Request) : Context :=
  WithValue
    (WithValue r.Context contextKeyResponseHeaders (Any.Header (served next w r).w.Header))
    contextKeyResponseSize (Any.int64 (served next w r).w.written)

/-- Source: `func Header(ctx context.Context) (http.Header, bool)`. -/
def Header (ctx : Context) : http.Header × Bool :=
  (ctx.Value contextKeyResponseHeaders).assertHeader

/-- Source: `func ResponseSize(ctx context.Context) (int, bool)`. -/
def ResponseSize (ctx : Context) : Int × Bool :=
  (ctx.Value contextKeyResponseSize).assertInt

end finalizer

/-! ## Package logutil (`logutil/logutil.go`) -/

namespace logutil

/-- Source: `type HTTPLogger struct`; the go-kit `log.Logger` it wraps is the
list of records handed to its `Log`, oldest first, each the `keyvals` of one
call. -/
structure HTTPLogger where
  logger : List (List Any)
  deriving DecidableEq

/-- Source: `func NewHTTPLogger(logger log.Logger) *HTTPLogger`. -/
def NewHTTPLogger (logger : List (List Any)) : HTTPLogger := ⟨logger⟩

/-- The `host` local of `LoggingFinalizer`: `net.SplitHostPort(r.RemoteAddr)`,
replaced by `r.RemoteAddr` when the split fails. -/
def hostOf (r : http.Request) : String :=
  match net.SplitHostPort r.RemoteAddr with
  | .ok (host, _) => host
  | .error _ => r.RemoteAddr

/-- The `keyvals` slice `LoggingFinalizer` hands to `Log`. -/
def keyvalsOf (ctx : context.Context) (code : Int) (r : http.Request) : List Any :=
  let host := hostOf r
  let keyvals : List Any :=
    [Any.string "method", Any.string r.Method,
     Any.string "status", Any.int code,
     Any.string "proto", Any.string r.Proto,
     Any.string "host", Any.string host,
     Any.string "user_agent", Any.string r.UserAgent]
  let referer := r.Referer
  let keyvals := if referer ≠ "" then keyvals ++ [Any.string "referer", Any.string referer]
    else keyvals
  let sz := finalizer.ResponseSize ctx
  let keyvals := if sz.2 = true then keyvals ++ [Any.string "response_size", Any.int sz.1]
    else keyvals
  keyvals

/-- Source: `func (l *HTTPLogger) LoggingFinalizer(ctx context.Context,
code int, r *http.Request)`. -/
def HTTPLogger.LoggingFinalizer (l : HTTPLogger) (ctx : context.Context) (code : Int)
    (r : http.Request) : HTTPLogger :=
  { l with logger := l.logger ++ [keyvalsOf ctx code r] }

/-- The method value `l.LoggingFinalizer` as the callback handed to
`finalizer.Middleware`: it acts on the logger and returns. -/
def LoggingFinalizerFunc : finalizer.ServerFinalizerFunc HTTPLogger :=
  fun ctx code r l => (Outcome.returned, l.LoggingFinalizer ctx code r)

/-- The records a call of `LoggingFinalizer` adds to the logger. -/
def logged (l : HTTPLogger) (ctx : context.Context) (code : Int) (r : http.Request) :
    List (List Any) :=
  (l.LoggingFinalizer ctx code r).logger.drop l.logger.length

/-- The value that follows a key in a `keyvals` slice. -/
def fieldOf (key : String) : List Any → Option Any
  | k :: v :: rest => if k = Any.string key then some v else fieldOf key rest
  | _ => none

/-- The keys of a `keyvals` slice: its elements at even positions. -/
def keysOf : List Any → List Any
  | k :: _ :: rest => k :: keysOf rest
  | [k] => [k]
  | [] => []

/-- The values of a `keyvals` slice: its elements at odd positions. -/
def valsOf : List Any → List Any
  | _ :: v :: rest => v :: valsOf rest
  | _ => []

end logutil

/-! ## Sample sinks, handlers and requests -/

namespace sample

/-- A sink that accepts every buffer in full. -/
def sink : http.ResponseWriter := ⟨[], [], fun _ p => ((p.length : Int), none), fun _ h => h⟩

/-- A sink that reports `2 ^ 62` bytes accepted on every write. -/
def hugeSink : http.ResponseWriter := ⟨[], [], fun _ _ => (2 ^ 62, none), fun _ h => h⟩

/-- A sink that accepts at most four bytes of a buffer and reports a short
write when it drops some. -/
def shortSink : http.ResponseWriter :=
  ⟨[], [], fun _ p => if p.length ≤ 4 then ((p.length : Int), none) else (4, some "short write"),
    fun _ h => h⟩

/-- A sink that accepts every buffer and, as `httptest.ResponseRecorder` does,
fills in `Content-Type` on a call when the handler has not set it. -/
def sniffingSink : http.ResponseWriter :=
  ⟨[], [], fun _ p => ((p.length : Int), none),
    fun _ h => match List.lookup "Content-Type" h with
      | some _ => h
      | none => h.Set "Content-Type" ["text/plain; charset=utf-8"]⟩

/-- A sink that accepts every buffer and, as a compressing writer does, drops
`Content-Length` from its header map on every call. -/
def strippingSink : http.ResponseWriter :=
  ⟨[], [], fun _ p => ((p.length : Int), none), fun _ h => h.Del "Content-Length"⟩

/-- A request with the given context. -/
def req (ctx : context.Context) : http.Request :=
  ⟨"GET", "HTTP/1.1", "10.0.0.5:443", [("User-Agent", ["test-agent"])], ctx⟩

/-- A finalizer callback that does nothing and returns. -/
def quiet : finalizer.ServerFinalizerFunc Unit := fun _ _ _ s => (Outcome.returned, s)

/-- One invocation of a finalizer callback: the arguments it received. -/
structure FinalizerCall where
  ctx : context.Context
  code : Int
  r : http.Request
  deriving DecidableEq

/-- A finalizer callback that appends the arguments of each invocation to a
list and returns. -/
def recorder : finalizer.ServerFinalizerFunc (List FinalizerCall) :=
  fun ctx code r calls => (Outcome.returned, calls ++ [⟨ctx, code, r⟩])

/-- A finalizer callback that counts its invocations and panics. -/
def failing : finalizer.ServerFinalizerFunc Nat :=
  fun _ _ _ n => (Outcome.panicked "log failure", n + 1)

/-- A handler issuing writes of 10, 0 and 25 bytes. -/
def threeWrites : http.Handler := fun _ =>
  Prog.Write (List.replicate 10 0) fun _ _ =>
  Prog.Write [] fun _ _ =>
  Prog.Write (List.replicate 25 0) fun _ _ => Prog.ret

/-- A handler that sets status 404, a header, writes seven bytes and panics. -/
def notFoundThenPanic : http.Handler := fun _ =>
  Prog.HeaderSet "Content-Type" ["text/plain"] <|
  Prog.WriteHeader 404 <|
  Prog.Write (List.replicate 7 0) fun _ _ => Prog.panic "boom"

/-- A handler that sets `Content-Length`, then status 200, then writes five
bytes. -/
def withLength : http.Handler := fun _ =>
  Prog.HeaderSet "Content-Length" ["5"] <|
  Prog.WriteHeader 200 <|
  Prog.Write (List.replicate 5 0) fun _ _ => Prog.ret

/-- A handler making two empty writes. -/
def twoWrites : http.Handler := fun _ =>
  Prog.Write [] fun _ _ => Prog.Write [] fun _ _ => Prog.ret

end sample

/-! ## Arithmetic of the 64 bit counter -/

open finalizer context logutil

/-- Reducing the second summand first does not change the reduced sum. -/
theorem wrapInt64_add_wrap (a b : Int) : wrapInt64 (a + wrapInt64 b) = wrapInt64 (a + b) := by
  unfold wrapInt64; omega

/-- Reducing the first summand first does not change the reduced sum. -/
theorem wrapInt64_wrap_add (a b : Int) : wrapInt64 (wrapInt64 a + b) = wrapInt64 (a + b) := by
  unfold wrapInt64; omega

/-- Reduction to `int64` is idempotent. -/
theorem wrapInt64_idem (a : Int) : wrapInt64 (wrapInt64 a) = wrapInt64 a := by
  unfold wrapInt64; omega

/-- Zero is an `int64`. -/
theorem wrapInt64_zero : wrapInt64 0 = 0 := by decide

/-- Reduction leaves an integer of the `int64` range alone. -/
theorem wrapInt64_of_range {x : Int} (h1 : minInt64 ≤ x) (h2 : x ≤ maxInt64) : wrapInt64 x = x := by
  unfold wrapInt64; unfold minInt64 at h1; unfold maxInt64 at h2; omega

/-! ## Running a handler against the interceptor -/

/-- A leading `WriteHeader` becomes the default for the rest of the trace. -/
theorem lastWriteHeader_cons_code (code : Int) (tr : List http.Event) (d : Int) :
    (lastWriteHeader (http.Event.WriteHeader code :: tr)).getD d = (lastWriteHeader tr).getD code := by
  simp [lastWriteHeader, codesOf, List.getLast?_cons]


/-- After a handler has run, `code` is the argument of its last `WriteHeader`
call, or what `code` was before when it made none. -/
theorem exec_code (P : Prog) (iw : interceptingWriter) :
    (P.exec interceptingWriter.asWriter iw).w.code
      = (lastWriteHeader (P.exec interceptingWriter.asWriter iw).trace).getD iw.code := by
  induction P generalizing iw with
  | ret => simp [Prog.exec, lastWriteHeader, codesOf]
  | panic v => simp [Prog.exec, lastWriteHeader, codesOf]
  | WriteHeader code k ih =>
    simp only [Prog.exec]
    rw [lastWriteHeader_cons_code, ih]
    rfl
  | Write p k ih =>
    simp only [Prog.exec]
    rw [ih]
    simp [lastWriteHeader, codesOf, interceptingWriter.asWriter, interceptingWriter.Write]
  | Header k ih => simp only [Prog.exec]; rw [ih]
  | HeaderSet key vals k ih =>
    simp only [Prog.exec]
    rw [ih]
    simp [lastWriteHeader, codesOf, interceptingWriter.asWriter, interceptingWriter.HeaderSet]
  | HeaderDel key k ih =>
    simp only [Prog.exec]
    rw [ih]
    simp [lastWriteHeader, codesOf, interceptingWriter.asWriter, interceptingWriter.HeaderDel]

/-- After a handler has run, `written` is the reduced sum of what it was
before and the counts returned to the handler. -/
theorem exec_written (P : Prog) (iw : interceptingWriter) (h : wrapInt64 iw.written = iw.written) :
    (P.exec interceptingWriter.asWriter iw).w.written
      = wrapInt64 (iw.written + (countsOf (P.exec interceptingWriter.asWriter iw).trace).sum) := by
  induction P generalizing iw with
  | ret => simp [Prog.exec, countsOf, h]
  | panic v => simp [Prog.exec, countsOf, h]
  | WriteHeader code k ih =>
    simp only [Prog.exec]
    rw [ih _ (by simpa [interceptingWriter.asWriter, interceptingWriter.WriteHeader] using h)]
    simp [countsOf, interceptingWriter.asWriter, interceptingWriter.WriteHeader]
  | Write p k ih =>
    simp only [Prog.exec]
    rw [ih _ _ _ (by simp [interceptingWriter.asWriter, interceptingWriter.Write, wrapInt64_idem])]
    simp only [countsOf, interceptingWriter.asWriter, interceptingWriter.Write, List.filterMap_cons,
      List.sum_cons]
    rw [wrapInt64_add_wrap, wrapInt64_wrap_add, add_assoc]
  | Header k ih => simp only [Prog.exec]; rw [ih _ _ h]
  | HeaderSet key vals k ih =>
    simp only [Prog.exec]
    rw [ih _ (by simpa [interceptingWriter.asWriter, interceptingWriter.HeaderSet] using h)]
    simp [countsOf, interceptingWriter.asWriter, interceptingWriter.HeaderSet]
  | HeaderDel key k ih =>
    simp only [Prog.exec]
    rw [ih _ (by simpa [interceptingWriter.asWriter, interceptingWriter.HeaderDel] using h)]
    simp [countsOf, interceptingWriter.asWriter, interceptingWriter.HeaderDel]

/-- Running a handler against the interceptor leaves the sink, the outcome and
the results seen by the handler as running it against the sink itself. -/
theorem exec_transparent (P : Prog) (iw : interceptingWriter) :
    (P.exec interceptingWriter.asWriter iw).w.ResponseWriter
        = (P.exec http.ResponseWriter.asWriter iw.ResponseWriter).w
      ∧ (P.exec interceptingWriter.asWriter iw).outcome
        = (P.exec http.ResponseWriter.asWriter iw.ResponseWriter).outcome
      ∧ (P.exec interceptingWriter.asWriter iw).trace
        = (P.exec http.ResponseWriter.asWriter iw.ResponseWriter).trace := by
  induction P generalizing iw with
  | ret => simp [Prog.exec]
  | panic v => simp [Prog.exec]
  | WriteHeader code k ih =>
    simp only [Prog.exec]
    have := ih (interceptingWriter.asWriter.WriteHeader iw code)
    simpa [interceptingWriter.asWriter, interceptingWriter.WriteHeader,
      http.ResponseWriter.asWriter] using this
  | Write p k ih =>
    simp only [Prog.exec]
    have := ih (interceptingWriter.asWriter.Write iw p).1.1 (interceptingWriter.asWriter.Write iw p).1.2
      (interceptingWriter.asWriter.Write iw p).2
    simpa [interceptingWriter.asWriter, interceptingWriter.Write,
      http.ResponseWriter.asWriter] using this
  | Header k ih =>
    simp only [Prog.exec]
    have := ih (interceptingWriter.asWriter.Header iw) iw
    simpa [interceptingWriter.asWriter, interceptingWriter.Header,
      http.ResponseWriter.asWriter] using this
  | HeaderSet key vals k ih =>
    simp only [Prog.exec]
    have := ih (interceptingWriter.asWriter.HeaderSet iw key vals)
    simpa [interceptingWriter.asWriter, interceptingWriter.HeaderSet,
      http.ResponseWriter.asWriter] using this
  | HeaderDel key k ih =>
    simp only [Prog.exec]
    have := ih (interceptingWriter.asWriter.HeaderDel iw key)
    simpa [interceptingWriter.asWriter, interceptingWriter.HeaderDel,
      http.ResponseWriter.asWriter] using this

/-- A sink run directly has received exactly the calls of the trace, holds the
header map those calls produce, and keeps its reply and `touch` functions. -/
theorem exec_sink (P : Prog) (w : http.ResponseWriter) :
    (P.exec http.ResponseWriter.asWriter w).w.events
        = w.events ++ (P.exec http.ResponseWriter.asWriter w).trace
      ∧ (P.exec http.ResponseWriter.asWriter w).w.hdr
        = headerAfter w.touch w.events w.hdr (P.exec http.ResponseWriter.asWriter w).trace
      ∧ (P.exec http.ResponseWriter.asWriter w).w.reply = w.reply
      ∧ (P.exec http.ResponseWriter.asWriter w).w.touch = w.touch := by
  induction P generalizing w with
  | ret => simp [Prog.exec, headerAfter]
  | panic v => simp [Prog.exec, headerAfter]
  | WriteHeader code k ih =>
    simp only [Prog.exec]
    have := ih (http.ResponseWriter.asWriter.WriteHeader w code)
    simpa [http.ResponseWriter.asWriter, http.ResponseWriter.WriteHeader, headerAfter] using this
  | Write p k ih =>
    simp only [Prog.exec]
    have := ih (http.ResponseWriter.asWriter.Write w p).1.1 (http.ResponseWriter.asWriter.Write w p).1.2
      (http.ResponseWriter.asWriter.Write w p).2
    simpa [http.ResponseWriter.asWriter, http.ResponseWriter.Write, headerAfter] using this
  | Header k ih =>
    simp only [Prog.exec]
    exact ih _ w
  | HeaderSet key vals k ih =>
    simp only [Prog.exec]
    have := ih (http.ResponseWriter.asWriter.HeaderSet w key vals)
    simpa [http.ResponseWriter.asWriter, http.ResponseWriter.HeaderSet, headerAfter] using this
  | HeaderDel key k ih =>
    simp only [Prog.exec]
    have := ih (http.ResponseWriter.asWriter.HeaderDel w key)
    simpa [http.ResponseWriter.asWriter, http.ResponseWriter.HeaderDel, headerAfter] using this

/-! ## The middleware -/

/-- The frame of `Middleware` after the deferred closure has run: the
interceptor and the trace are those the inner handler left, the callback has
been applied once, to the context built by the closure, the recorded status
and the request, and the call ends as the callback does when that panics and
as the handler did otherwise. -/
theorem Middleware_frame {κ : Type} (f : ServerFinalizerFunc κ) (next : http.Handler)
    (w : http.ResponseWriter) (r : http.Request) (s : κ) :
    (Middleware f next w r s).2.iw = (served next w r).w
      ∧ (Middleware f next w r s).2.trace = (served next w r).trace
      ∧ (Middleware f next w r s).2.ctx = finalCtx next w r
      ∧ (Middleware f next w r s).2.world
          = (f (finalCtx next w r) (served next w r).w.code r s).2
      ∧ (Middleware f next w r s).1
          = (match (f (finalCtx next w r) (served next w r).w.code r s).1 with
             | .panicked v => Outcome.panicked v
             | .returned => (served next w r).outcome) := by
  simp [Middleware, withDefer, served, finalCtx]

/-- The two context keys differ. -/
theorem contextKeys_ne : contextKeyResponseHeaders ≠ contextKeyResponseSize := by decide

/-- What the context built by the deferred closure holds under the two keys. -/
theorem finalCtx_values (next : http.Handler) (w : http.ResponseWriter) (r : http.Request) :
    (finalCtx next w r).Value contextKeyResponseHeaders = Any.Header (served next w r).w.Header
      ∧ (finalCtx next w r).Value contextKeyResponseSize
        = Any.int64 (served next w r).w.written := by
  simp [finalCtx, WithValue, Context.Value, contextKeyResponseHeaders, contextKeyResponseSize]

/-- The status the inner handler leaves under `Middleware`: the argument of its
last `WriteHeader` call, or 200. -/
theorem served_code (next : http.Handler) (w : http.ResponseWriter) (r : http.Request) :
    (served next w r).w.code
      = (match (codesOf (served next w r).trace).getLast? with
         | some code => code
         | none => 200) := by
  have := exec_code (next r) ⟨w, http.StatusOK, 0⟩
  simp only [served, this, lastWriteHeader]
  cases (codesOf ((next r).exec interceptingWriter.asWriter ⟨w, http.StatusOK, 0⟩).trace).getLast? <;>
    simp [http.StatusOK]

/-- The byte total the inner handler leaves under `Middleware`: the reduced sum
of the counts returned to it. -/
theorem served_written (next : http.Handler) (w : http.ResponseWriter) (r : http.Request) :
    (served next w r).w.written = wrapInt64 (countsOf (served next w r).trace).sum := by
  have := exec_written (next r) ⟨w, http.StatusOK, 0⟩ wrapInt64_zero
  simp only [zero_add] at this
  exact this

/-- The sink the inner handler leaves under `Middleware` is the one a direct
run leaves; it has received the handler's calls, and its header map is the
initial one after those calls. -/
theorem served_sink (next : http.Handler) (w : http.ResponseWriter) (r : http.Request) :
    (served next w r).w.ResponseWriter = ((next r).exec http.ResponseWriter.asWriter w).w
      ∧ (served next w r).w.ResponseWriter.events = w.events ++ (served next w r).trace
      ∧ (served next w r).w.ResponseWriter.Header
          = headerAfter w.touch w.events w.Header (served next w r).trace := by
  have ht := exec_transparent (next r) ⟨w, http.StatusOK, 0⟩
  have hs := exec_sink (next r) w
  refine ⟨ht.1, ?_, ?_⟩
  · simp only [served]
    rw [ht.1, ht.2.2]
    exact hs.1
  · simp only [served, http.ResponseWriter.Header]
    rw [ht.1, ht.2.2]
    exact hs.2.1

/-- `Header` on the context built by the deferred closure finds the sink's
header map. -/
theorem Header_finalCtx (next : http.Handler) (w : http.ResponseWriter) (r : http.Request) :
    Header (finalCtx next w r) = ((served next w r).w.ResponseWriter.Header, true) := by
  simp [Header, (finalCtx_values next w r).1, Any.assertHeader, interceptingWriter.Header]

/-- `ResponseSize` on the context built by the deferred closure finds nothing:
the value stored is an `int64`. -/
theorem ResponseSize_finalCtx (next : http.Handler) (w : http.ResponseWriter)
    (r : http.Request) : ResponseSize (finalCtx next w r) = (0, false) := by
  simp [ResponseSize, (finalCtx_values next w r).2, Any.assertInt]

/-- With non-negative counts and a total within `int64`, the counter ends at
the exact sum and not below where it started. -/
theorem exec_written_mono (P : Prog) (iw : interceptingWriter)
    (h0 : 0 ≤ iw.written) (hmax : iw.written ≤ maxInt64)
    (hpos : ∀ c ∈ countsOf (P.exec interceptingWriter.asWriter iw).trace, 0 ≤ c)
    (hsum : iw.written + (countsOf (P.exec interceptingWriter.asWriter iw).trace).sum ≤ maxInt64) :
    (P.exec interceptingWriter.asWriter iw).w.written
        = iw.written + (countsOf (P.exec interceptingWriter.asWriter iw).trace).sum
      ∧ iw.written ≤ (P.exec interceptingWriter.asWriter iw).w.written := by
  have hw : wrapInt64 iw.written = iw.written :=
    wrapInt64_of_range (by unfold minInt64; omega) hmax
  have hs : 0 ≤ (countsOf (P.exec interceptingWriter.asWriter iw).trace).sum :=
    List.sum_nonneg hpos
  have := exec_written P iw hw
  rw [this, wrapInt64_of_range (by unfold minInt64; omega) hsum]
  exact ⟨rfl, by omega⟩

/-! ## Header maps -/

/-- Removing the entries of one key does not change the lookup of another. -/
theorem lookup_filter_ne (h : http.Header) (k key : String) (hne : k ≠ key) :
    List.lookup key (h.filter (fun e => e.1 ≠ k)) = List.lookup key h := by
  induction h with
  | nil => rfl
  | cons e t ih =>
    obtain ⟨a, b⟩ := e
    by_cases hak : a = k
    · subst hak
      have : (key == a) = false := by simpa using (Ne.symm hne)
      simp only [List.filter, ne_eq, not_true_eq_false, decide_False, List.lookup, this]
      exact ih
    · by_cases hka : key = a
      · subst hka
        simp [List.filter, hak, List.lookup]
      · have : (key == a) = false := by simpa using hka
        simp only [List.filter, ne_eq, hak, not_false_eq_true, decide_True, List.lookup, this]
        exact ih

/-- An assigned key reads back its values. -/
theorem lookup_Set_self (h : http.Header) (key : String) (vals : List String) :
    List.lookup key (h.Set key vals) = some vals := by
  simp [http.Header.Set, List.lookup]

/-- Assigning one key does not change the lookup of another. -/
theorem lookup_Set_other (h : http.Header) (k key : String) (vals : List String) (hne : k ≠ key) :
    List.lookup key (h.Set k vals) = List.lookup key h := by
  have : (key == k) = false := by simpa using (Ne.symm hne)
  simp only [http.Header.Set, List.lookup, this]
  exact lookup_filter_ne h k key hne

/-- Deleting one key does not change the lookup of another. -/
theorem lookup_Del_other (h : http.Header) (k key : String) (hne : k ≠ key) :
    List.lookup key (h.Del k) = List.lookup key h := by
  simp only [http.Header.Del]
  exact lookup_filter_ne h k key hne

/-- Replaying two traces in a row. -/
theorem headerAfter_append (touch : List http.Event → http.Header → http.Header)
    (evs : List http.Event) (h : http.Header) (a b : List http.Event) :
    headerAfter touch evs h (a ++ b)
      = headerAfter touch (evs ++ a) (headerAfter touch evs h a) b := by
  induction a generalizing evs h with
  | nil => simp [headerAfter]
  | cons e t ih => cases e <;> simp [headerAfter, ih]

/-- A trace that neither assigns nor deletes a key, received by a sink that
leaves the key alone, does not change its lookup. -/
theorem lookup_headerAfter_untouched (touch : List http.Event → http.Header → http.Header)
    (key : String) (hkeep : ∀ evs h, List.lookup key (touch evs h) = List.lookup key h)
    (tr : List http.Event) (evs : List http.Event) (h : http.Header)
    (hclean : ∀ e ∈ tr, e ≠ http.Event.HeaderDel key ∧ ∀ v, e ≠ http.Event.HeaderSet key v) :
    List.lookup key (headerAfter touch evs h tr) = List.lookup key h := by
  induction tr generalizing evs h with
  | nil => rfl
  | cons e t ih =>
    have ht : ∀ e ∈ t, e ≠ http.Event.HeaderDel key ∧ ∀ v, e ≠ http.Event.HeaderSet key v :=
      fun e he => hclean e (List.mem_cons_of_mem _ he)
    have he := hclean e (List.mem_cons_self _ _)
    cases e with
    | WriteHeader code =>
      simp only [headerAfter]
      rw [ih _ _ ht, hkeep]
    | Write p n err =>
      simp only [headerAfter]
      rw [ih _ _ ht, hkeep]
    | HeaderSet k vals =>
      have hk : k ≠ key := by
        intro hk; subst hk; exact he.2 vals rfl
      simp only [headerAfter]
      rw [ih _ _ ht, lookup_Set_other _ _ _ _ hk]
    | HeaderDel k =>
      have hk : k ≠ key := by
        intro hk; subst hk; exact he.1 rfl
      simp only [headerAfter]
      rw [ih _ _ ht, lookup_Del_other _ _ _ hk]

/-- A key assigned in a trace and touched neither by the handler nor by the
sink afterwards reads back the assigned values. -/
theorem lookup_headerAfter_set (touch : List http.Event → http.Header → http.Header)
    (key : String) (hkeep : ∀ evs h, List.lookup key (touch evs h) = List.lookup key h)
    (vals : List String) (tr1 tr2 : List http.Event) (evs : List http.Event) (h : http.Header)
    (hclean : ∀ e ∈ tr2, e ≠ http.Event.HeaderDel key ∧ ∀ v, e ≠ http.Event.HeaderSet key v) :
    List.lookup key (headerAfter touch evs h (tr1 ++ http.Event.HeaderSet key vals :: tr2))
      = some vals := by
  rw [headerAfter_append]
  simp only [headerAfter]
  rw [lookup_headerAfter_untouched touch key hkeep tr2 _ _ hclean, lookup_Set_self]

/-! ## Splitting host and port -/

/-- No first occurrence of an absent character. -/
theorem IndexByte_of_not_mem (l : List Char) (c : Char) (h : c ∉ l) : net.IndexByte l c = none := by
  induction l with
  | nil => rfl
  | cons x xs ih =>
    have hx : ¬ x = c := fun e => h (by simp [e])
    have hxs : c ∉ xs := fun m => h (List.mem_cons_of_mem _ m)
    simp [net.IndexByte, hx, ih hxs]

/-- No last occurrence of an absent character. -/
theorem LastIndexByte_of_not_mem (l : List Char) (c : Char) (h : c ∉ l) :
    net.LastIndexByte l c = none := by
  induction l with
  | nil => rfl
  | cons x xs ih =>
    have hx : ¬ x = c := fun e => h (by simp [e])
    have hxs : c ∉ xs := fun m => h (List.mem_cons_of_mem _ m)
    simp [net.LastIndexByte, hx, ih hxs]

/-- The last occurrence of `c` in `h ++ c :: p`, when `p` has none. -/
theorem LastIndexByte_append (h p : List Char) (c : Char) (hp : c ∉ p) :
    net.LastIndexByte (h ++ c :: p) c = some h.length := by
  induction h with
  | nil => simp [net.LastIndexByte, LastIndexByte_of_not_mem p c hp]
  | cons x xs ih => simp [net.LastIndexByte, ih]

/-- An address without a colon does not split. -/
theorem SplitHostPort_no_colon (s : String) (h : ':' ∉ s.data) :
    net.SplitHostPort s = .error .missingPort := by
  simp [net.SplitHostPort, LastIndexByte_of_not_mem _ _ h]

/-- An address `h:p` with neither colon nor bracket in `h` and `p` splits into
`h` and `p`. -/
theorem SplitHostPort_join (h p : List Char)
    (hh : ':' ∉ h ∧ '[' ∉ h ∧ ']' ∉ h) (hp : ':' ∉ p ∧ '[' ∉ p ∧ ']' ∉ p) :
    net.SplitHostPort (String.mk (h ++ ':' :: p)) = .ok (String.mk h, String.mk p) := by
  have hhead : (h ++ ':' :: p).head? ≠ some '[' := by
    cases h with
    | nil => simp
    | cons x xs =>
      intro e
      apply hh.2.1
      simp at e
      simp [e]
  have hopen : '[' ∉ h ++ ':' :: p := by
    simp [hh.2.1, hp.2.1]
  have hclose : ']' ∉ h ++ ':' :: p := by
    simp [hh.2.2, hp.2.2]
  simp only [net.SplitHostPort, LastIndexByte_append h p ':' hp.1, hhead, if_false]
  simp [net.splitTail, IndexByte_of_not_mem _ _ hh.1, IndexByte_of_not_mem _ _ hopen,
    IndexByte_of_not_mem _ _ hclose]


/-! ## The access logger -/

/-- The record of `LoggingFinalizer`, spelled out. -/
theorem keyvalsOf_eq (ctx : Context) (code : Int) (r : http.Request) :
    keyvalsOf ctx code r
      = [Any.string "method", Any.string r.Method, Any.string "status", Any.int code,
         Any.string "proto", Any.string r.Proto, Any.string "host", Any.string (hostOf r),
         Any.string "user_agent", Any.string r.UserAgent]
        ++ (if r.Referer ≠ "" then [Any.string "referer", Any.string r.Referer] else [])
        ++ (if (ResponseSize ctx).2 = true
            then [Any.string "response_size", Any.int (ResponseSize ctx).1] else []) := by
  unfold keyvalsOf
  by_cases h1 : r.Referer = "" <;> by_cases h2 : (ResponseSize ctx).2 = true <;> simp [h1, h2]

/-- The keys of the record of `LoggingFinalizer`. -/
theorem keysOf_keyvalsOf (ctx : Context) (code : Int) (r : http.Request) :
    keysOf (keyvalsOf ctx code r)
      = [Any.string "method", Any.string "status", Any.string "proto", Any.string "host",
         Any.string "user_agent"]
        ++ (if r.Referer ≠ "" then [Any.string "referer"] else [])
        ++ (if (ResponseSize ctx).2 = true then [Any.string "response_size"] else []) := by
  unfold keyvalsOf
  by_cases h1 : r.Referer = "" <;> by_cases h2 : (ResponseSize ctx).2 = true <;>
    simp [h1, h2, keysOf]

/-- The key `referer` is in the record exactly when the Referer is non-empty. -/
theorem referer_mem_keysOf (ctx : Context) (code : Int) (r : http.Request) :
    Any.string "referer" ∈ keysOf (keyvalsOf ctx code r) ↔ r.Referer ≠ "" := by
  rw [keysOf_keyvalsOf]
  by_cases h1 : r.Referer = "" <;> by_cases h2 : (ResponseSize ctx).2 = true <;> simp [h1, h2]

/-- The key `response_size` is in the record exactly when `ResponseSize`
reports found. -/
theorem response_size_mem_keysOf (ctx : Context) (code : Int) (r : http.Request) :
    Any.string "response_size" ∈ keysOf (keyvalsOf ctx code r)
      ↔ (ResponseSize ctx).2 = true := by
  rw [keysOf_keyvalsOf]
  by_cases h1 : r.Referer = "" <;> by_cases h2 : (ResponseSize ctx).2 = true <;> simp [h1, h2]


/-! ## The claims -/

/-- Claim C1: for every finalizer callback (acting on any state), inner handler,
sink and request, the trace kept for the run is the sequence of calls the
handler made on the `interceptingWriter` it was given, and `Middleware` applies
the callback to the status code that is the argument of the last `WriteHeader`
call of that trace, or 200 (`http.StatusOK`) when the trace has no
`WriteHeader` call, whatever `Write` calls it has: the state the callback
leaves and the way the call ends are those of the callback applied at that
status code, and a callback that records its arguments has recorded exactly
that status code. -/
theorem finalizer_status_is_last_WriteHeader {κ : Type} (f : ServerFinalizerFunc κ)
    (next : http.Handler) (w : http.ResponseWriter) (r : http.Request) (s : κ) :
    (Middleware f next w r s).2.trace
        = ((next r).exec interceptingWriter.asWriter ⟨w, http.StatusOK, 0⟩).trace
      ∧ (Middleware f next w r s).2.world
        = (f (finalCtx next w r)
            (match (codesOf (Middleware f next w r s).2.trace).getLast? with
             | some code => code
             | none => 200) r s).2
      ∧ (Middleware f next w r s).1
        = (match (f (finalCtx next w r)
              (match (codesOf (Middleware f next w r s).2.trace).getLast? with
               | some code => code
               | none => 200) r s).1 with
           | .panicked v => Outcome.panicked v
           | .returned => (served next w r).outcome)
      ∧ (Middleware sample.recorder next w r []).2.world.map sample.FinalizerCall.code
        = [match (codesOf (Middleware sample.recorder next w r []).2.trace).getLast? with
           | some code => code
           | none => 200] := by
  obtain ⟨_, h2, _, h4, h5⟩ := Middleware_frame f next w r s
  obtain ⟨_, r2, _, r4, _⟩ := Middleware_frame sample.recorder next w r []
  have hc := served_code next w r
  refine ⟨h2, ?_, ?_, ?_⟩
  · rw [h4, h2, ← hc]
  · rw [h5, h2, ← hc]
  · rw [r4, r2, ← hc]
    simp [sample.recorder]

/-- Claim C2, the code evaluated: for every handler run under `Middleware` the
callback is applied to a context that holds the byte total under
`contextKeyResponseSize` as an `int64`, and `ResponseSize`, which asserts `int`,
returns `(0, false)` on it: a callback that records its arguments has recorded
such a context, and `LoggingFinalizer` as the callback logs one record without
a `response_size` key; for writes of 10, 0 and 25 bytes the context holds the
`int64` 35 and `ResponseSize` returns `(0, false)`, not `(35, true)`. -/
theorem ResponseSize_after_Middleware_not_found {κ : Type} (f : ServerFinalizerFunc κ)
    (next : http.Handler) (w : http.ResponseWriter) (r : http.Request) (s : κ)
    (l : HTTPLogger) :
    (Middleware sample.recorder next w r []).2.world.map
        (fun c => (c.ctx.Value contextKeyResponseSize, ResponseSize c.ctx))
      = [(Any.int64 (Middleware sample.recorder next w r []).2.iw.written, ((0 : Int), false))]
      ∧ (Middleware sample.recorder next w r []).2.world.map
        (fun c => decide (Any.string "response_size" ∈ keysOf (keyvalsOf c.ctx c.code c.r)))
        = [false]
      ∧ (Middleware sample.recorder sample.threeWrites sample.sink
          (sample.req Context.Background) []).2.world.map
          (fun c => (c.ctx.Value contextKeyResponseSize, ResponseSize c.ctx))
        = [(Any.int64 35, ((0 : Int), false))]
      ∧ (Middleware f next w r s).2.world
        = (f (finalCtx next w r) (Middleware f next w r s).2.iw.code r s).2
      ∧ (finalCtx next w r).Value contextKeyResponseSize
        = Any.int64 (Middleware f next w r s).2.iw.written
      ∧ ResponseSize (finalCtx next w r) = (0, false)
      ∧ (logged l (finalCtx next w r) (Middleware f next w r s).2.iw.code r).map
          (fun kv => decide (Any.string "response_size" ∈ keysOf kv)) = [false]
      ∧ (Middleware LoggingFinalizerFunc next w r l).2.world.logger
        = l.logger ++ logged l (finalCtx next w r) (Middleware f next w r s).2.iw.code r := by
  obtain ⟨h1, _, _, h4, _⟩ := Middleware_frame f next w r s
  obtain ⟨r1, _, _, r4, _⟩ := Middleware_frame sample.recorder next w r []
  obtain ⟨_, _, _, l4, _⟩ := Middleware_frame LoggingFinalizerFunc next w r l
  have hv := finalCtx_values next w r
  have hS := ResponseSize_finalCtx next w r
  have hno : ¬ Any.string "response_size"
      ∈ keysOf (keyvalsOf (finalCtx next w r) (served next w r).w.code r) := by
    have := (response_size_mem_keysOf (finalCtx next w r) (served next w r).w.code r).not
    simp only [hS, Bool.false_eq_true, not_false_eq_true, iff_true] at this
    exact this
  refine ⟨?_, ?_, by decide, ?_, ?_, hS, ?_, ?_⟩
  · rw [r4, r1]
    simp [sample.recorder, hv.2, hS]
  · rw [r4]
    simp [sample.recorder, hno]
  · rw [h4, h1]
  · rw [h1]; exact hv.2
  · rw [h1]
    simp [logged, HTTPLogger.LoggingFinalizer, hno]
  · rw [l4, h1]
    simp [logged, LoggingFinalizerFunc, HTTPLogger.LoggingFinalizer]

/-- Claim C3 fails as stated: a handler that panics with `boom` after writing
seven bytes, under a finalizer callback that panics itself, leaves the call of
the middleware panicking with the callback's value, so the handler's panic does
not reach the caller; the callback has still been invoked once. -/
theorem handler_panic_replaced_by_callback_panic :
    (served sample.notFoundThenPanic sample.sink (sample.req Context.Background)).outcome
        = Outcome.panicked "boom"
      ∧ (Middleware sample.failing sample.notFoundThenPanic sample.sink
          (sample.req Context.Background) 0).1 = Outcome.panicked "log failure"
      ∧ (Middleware sample.failing sample.notFoundThenPanic sample.sink
          (sample.req Context.Background) 0).1 ≠ Outcome.panicked "boom"
      ∧ (Middleware sample.failing sample.notFoundThenPanic sample.sink
          (sample.req Context.Background) 0).2.world = 1 := by
  decide

/-- Claim C3, amended: for every finalizer callback (acting on any state), inner
handler, sink and request, whether the handler returns or panics, `Middleware`
applies the callback exactly once, after the handler has ended: the state the
callback leaves is that of one application to the context built from what the
handler left, the status code recorded by then and the original request, and a
callback that records its arguments has recorded exactly one invocation. The
byte total in that context is the reduced sum of the counts of the handler's
writes up to its end, the status code is that of its last `WriteHeader` call
(200 without one), and the sink has received the handler's calls by then. The
call ends as the callback does when that panics and as the handler did
otherwise: when the handler panicked the call never returns normally, it panics
with the handler's own value when the callback returned and with the callback's
value when the callback panicked. -/
theorem finalizer_runs_once_after_handler {κ : Type} (f : ServerFinalizerFunc κ)
    (next : http.Handler) (w : http.ResponseWriter) (r : http.Request) (s : κ) :
    (Middleware f next w r s).2.world
        = (f (finalCtx next w r) (served next w r).w.code r s).2
      ∧ (Middleware sample.recorder next w r []).2.world
        = [⟨finalCtx next w r, (served next w r).w.code, r⟩]
      ∧ (finalCtx next w r).Value contextKeyResponseSize
        = Any.int64 (wrapInt64 (countsOf (served next w r).trace).sum)
      ∧ (served next w r).w.code = ((lastWriteHeader (served next w r).trace).getD 200)
      ∧ (Middleware f next w r s).2.iw.ResponseWriter.events = w.events ++ (served next w r).trace
      ∧ (Middleware f next w r s).1
        = (match (f (finalCtx next w r) (served next w r).w.code r s).1 with
           | .panicked v => Outcome.panicked v
           | .returned => (served next w r).outcome)
      ∧ (∀ v, (served next w r).outcome = Outcome.panicked v →
          (Middleware f next w r s).1 ≠ Outcome.returned
          ∧ ((f (finalCtx next w r) (served next w r).w.code r s).1 = Outcome.returned →
              (Middleware f next w r s).1 = Outcome.panicked v)
          ∧ (∀ v2, (f (finalCtx next w r) (served next w r).w.code r s).1 = Outcome.panicked v2 →
              (Middleware f next w r s).1 = Outcome.panicked v2)) := by
  obtain ⟨h1, _, _, h4, h5⟩ := Middleware_frame f next w r s
  obtain ⟨_, _, _, r4, _⟩ := Middleware_frame sample.recorder next w r []
  refine ⟨h4, ?_, ?_, ?_, ?_, h5, ?_⟩
  · rw [r4]; simp [sample.recorder]
  · rw [(finalCtx_values next w r).2, served_written]
  · simpa [served, http.StatusOK] using exec_code (next r) ⟨w, http.StatusOK, 0⟩
  · rw [h1]; exact (served_sink next w r).2.1
  · intro v hv
    rw [h5, hv]
    refine ⟨?_, ?_, ?_⟩
    · cases (f (finalCtx next w r) (served next w r).w.code r s).1 <;> simp
    · intro hf
      rw [hf]
    · intro v2 hf
      rw [hf]

theorem finalizer_runs_once_after_handler_witness :
    (Middleware sample.recorder sample.notFoundThenPanic sample.sink
        (sample.req Context.Background) []).2.world.length = 1
      ∧ (Middleware sample.quiet sample.notFoundThenPanic sample.sink
        (sample.req Context.Background) ()).1 = Outcome.panicked "boom"
      ∧ (Middleware sample.failing sample.notFoundThenPanic sample.sink
        (sample.req Context.Background) 0).1 = Outcome.panicked "log failure" :=
  ⟨by rw [(finalizer_runs_once_after_handler sample.quiet sample.notFoundThenPanic sample.sink
        (sample.req Context.Background) ()).2.1]; rfl,
   ((finalizer_runs_once_after_handler sample.quiet sample.notFoundThenPanic sample.sink
        (sample.req Context.Background) ()).2.2.2.2.2.2 "boom" (by decide)).2.1 (by decide),
   ((finalizer_runs_once_after_handler sample.failing sample.notFoundThenPanic sample.sink
        (sample.req Context.Background) 0).2.2.2.2.2.2 "boom" (by decide)).2.2 "log failure"
        (by decide)⟩

/-- Claim C4 fails as stated: a sink that reports `2 ^ 62` bytes accepted on each
of two writes returns no negative count, yet the counter ends at `-(2 ^ 63)`,
which is not the sum `2 ^ 63` of the two counts, and the second write lowers
the counter from `2 ^ 62`. -/
theorem written_wraps_past_maxInt64 :
    countsOf (Middleware sample.quiet sample.twoWrites sample.hugeSink
        (sample.req Context.Background) ()).2.trace = [2 ^ 62, 2 ^ 62]
      ∧ (Middleware sample.quiet sample.twoWrites sample.hugeSink
        (sample.req Context.Background) ()).2.iw.written = -(2 ^ 63)
      ∧ (Middleware sample.quiet sample.twoWrites sample.hugeSink
        (sample.req Context.Background) ()).2.iw.written
          ≠ (countsOf (Middleware sample.quiet sample.twoWrites sample.hugeSink
              (sample.req Context.Background) ()).2.trace).sum
      ∧ (((⟨sample.hugeSink, http.StatusOK, 0⟩ : interceptingWriter).Write []).2.Write []).2.written
          < ((⟨sample.hugeSink, http.StatusOK, 0⟩ : interceptingWriter).Write []).2.written := by
  decide

/-- Claim C4, amended: for every handler run under `Middleware` the sink has
received exactly the handler's calls, and the `written` counter equals the sum
of the counts the sink returned for the `Write` calls reduced to the `int64`
range; it equals the sum itself when that sum lies in the `int64` range. Each
`Write` returns the sink's pair and adds the returned count modulo `2 ^ 64`,
`WriteHeader` leaves the counter alone, and a write with a non-negative count
that keeps the total at or below `2 ^ 63 - 1` does not lower the counter, nor
does any run of a handler under those conditions. -/
theorem written_is_wrapped_sum_of_counts {κ : Type} (f : ServerFinalizerFunc κ)
    (next : http.Handler) (w : http.ResponseWriter) (r : http.Request) (s : κ) :
    (Middleware f next w r s).2.iw.ResponseWriter.events
        = w.events ++ (Middleware f next w r s).2.trace
      ∧ (Middleware f next w r s).2.iw.written
        = wrapInt64 (countsOf (Middleware f next w r s).2.trace).sum
      ∧ (minInt64 ≤ (countsOf (Middleware f next w r s).2.trace).sum →
          (countsOf (Middleware f next w r s).2.trace).sum ≤ maxInt64 →
          (Middleware f next w r s).2.iw.written = (countsOf (Middleware f next w r s).2.trace).sum)
      ∧ (∀ (iw : interceptingWriter) (p : Bytes),
          (iw.Write p).1 = (iw.ResponseWriter.Write p).1
          ∧ (iw.Write p).2.written = wrapInt64 (iw.written + (iw.ResponseWriter.Write p).1.1)
          ∧ (minInt64 ≤ iw.written → 0 ≤ (iw.ResponseWriter.Write p).1.1 →
              iw.written + (iw.ResponseWriter.Write p).1.1 ≤ maxInt64 →
              iw.written ≤ (iw.Write p).2.written))
      ∧ (∀ (iw : interceptingWriter) (code : Int), (iw.WriteHeader code).written = iw.written)
      ∧ (∀ (P : Prog) (iw : interceptingWriter), 0 ≤ iw.written → iw.written ≤ maxInt64 →
          (∀ c ∈ countsOf (P.exec interceptingWriter.asWriter iw).trace, 0 ≤ c) →
          iw.written + (countsOf (P.exec interceptingWriter.asWriter iw).trace).sum ≤ maxInt64 →
          iw.written ≤ (P.exec interceptingWriter.asWriter iw).w.written) := by
  obtain ⟨h1, h2, _, _, _⟩ := Middleware_frame f next w r s
  have hw := exec_written (next r) ⟨w, http.StatusOK, 0⟩ wrapInt64_zero
  simp only [zero_add] at hw
  have hwr : (Middleware f next w r s).2.iw.written
      = wrapInt64 (countsOf (Middleware f next w r s).2.trace).sum := by
    rw [h1, h2]; exact hw
  refine ⟨?_, hwr, ?_, ?_, ?_, ?_⟩
  · rw [h1, h2]
    have ht := exec_transparent (next r) ⟨w, http.StatusOK, 0⟩
    have hs := exec_sink (next r) w
    simp only [served]
    rw [ht.1, ht.2.2]
    exact hs.1
  · intro hlo hhi
    rw [hwr, wrapInt64_of_range hlo hhi]
  · intro iw p
    refine ⟨rfl, ?_, ?_⟩
    · simp only [interceptingWriter.Write]
      rw [wrapInt64_add_wrap]
    · intro hlo hn hhi
      simp only [interceptingWriter.Write]
      rw [wrapInt64_add_wrap, wrapInt64_of_range (by omega) hhi]
      omega
  · intro iw code
    rfl
  · intro P iw h0 hmax hpos hsum
    exact (exec_written_mono P iw h0 hmax hpos hsum).2

theorem written_is_wrapped_sum_of_counts_witness :
    (Middleware sample.quiet sample.threeWrites sample.sink
        (sample.req Context.Background) ()).2.iw.written = 35 := by
  have h := (written_is_wrapped_sum_of_counts sample.quiet sample.threeWrites sample.sink
    (sample.req Context.Background) ()).2.2.1 (by decide) (by decide)
  rw [h]
  decide

/-- Claim C5: for every handler body and every interceptor state, running the
body against the `interceptingWriter` leaves the underlying sink in the state
it has after running the body against the sink directly (same events, same
arguments, same order, same header map), with the same outcome and the same
results returned to the handler; the sink has received exactly the calls of
the trace; each `Write` returns the pair the sink returned and `WriteHeader`
forwards its argument, including an error together with a non-zero count (a
six byte write on a sink that takes four returns `(4, short write)`). -/
theorem interceptor_is_transparent (P : Prog) (iw : interceptingWriter) :
    (P.exec interceptingWriter.asWriter iw).w.ResponseWriter
        = (P.exec http.ResponseWriter.asWriter iw.ResponseWriter).w
      ∧ (P.exec interceptingWriter.asWriter iw).outcome
        = (P.exec http.ResponseWriter.asWriter iw.ResponseWriter).outcome
      ∧ (P.exec interceptingWriter.asWriter iw).trace
        = (P.exec http.ResponseWriter.asWriter iw.ResponseWriter).trace
      ∧ (P.exec interceptingWriter.asWriter iw).w.ResponseWriter.events
        = iw.ResponseWriter.events ++ (P.exec interceptingWriter.asWriter iw).trace
      ∧ (∀ (v : interceptingWriter) (p : Bytes),
          (v.Write p).1 = (v.ResponseWriter.Write p).1
          ∧ (v.Write p).2.ResponseWriter = (v.ResponseWriter.Write p).2)
      ∧ (∀ (v : interceptingWriter) (code : Int),
          (v.WriteHeader code).ResponseWriter = v.ResponseWriter.WriteHeader code)
      ∧ ((⟨sample.shortSink, http.StatusOK, 0⟩ : interceptingWriter).Write
          (List.replicate 6 0)).1 = (4, some "short write") := by
  have ht := exec_transparent P iw
  have hs := exec_sink P iw.ResponseWriter
  refine ⟨ht.1, ht.2.1, ht.2.2, ?_, ?_, ?_, ?_⟩
  · rw [ht.1, ht.2.2]; exact hs.1
  · intro v p; exact ⟨rfl, rfl⟩
  · intro v code; rfl
  · decide


/-- Claim C6: for every request whose context holds nothing under the two keys,
`Middleware` consults the inner handler at the original request only, and
`Header` and `ResponseSize` both return not-found on that request's context;
the finalizer callback is applied once to that same original request, whose
own context still holds neither value, and to a separate context that holds
the header map under `contextKeyResponseHeaders` and the byte total under
`contextKeyResponseSize` and differs from the request's context: the state the
callback leaves and the way the call ends are those of the callback applied to
these arguments, and a callback that records its arguments has recorded exactly
them. -/
theorem context_isolation {κ : Type} (f : ServerFinalizerFunc κ) (next : http.Handler)
    (w : http.ResponseWriter) (r : http.Request) (s : κ)
    (hh : r.Context.Value contextKeyResponseHeaders = Any.nil)
    (hs : r.Context.Value contextKeyResponseSize = Any.nil) :
    Middleware f next w r s = Middleware f (fun _ => next r) w r s
      ∧ (Middleware f next w r s).2.trace
        = ((next r).exec interceptingWriter.asWriter ⟨w, http.StatusOK, 0⟩).trace
      ∧ Header r.Context = ([], false)
      ∧ ResponseSize r.Context = (0, false)
      ∧ (Middleware f next w r s).2.world
        = (f (finalCtx next w r) (Middleware f next w r s).2.iw.code r s).2
      ∧ (Middleware f next w r s).1
        = (match (f (finalCtx next w r) (Middleware f next w r s).2.iw.code r s).1 with
           | .panicked v => Outcome.panicked v
           | .returned => (served next w r).outcome)
      ∧ (finalCtx next w r).Value contextKeyResponseHeaders
        = Any.Header (Middleware f next w r s).2.iw.Header
      ∧ (finalCtx next w r).Value contextKeyResponseSize
        = Any.int64 (Middleware f next w r s).2.iw.written
      ∧ finalCtx next w r ≠ r.Context
      ∧ (∃ c, (Middleware sample.recorder next w r []).2.world = [c]
          ∧ c.r = r
          ∧ Header c.r.Context = ([], false)
          ∧ ResponseSize c.r.Context = (0, false)
          ∧ c.ctx = finalCtx next w r
          ∧ c.ctx ≠ c.r.Context) := by
  obtain ⟨h1, h2, _, h4, h5⟩ := Middleware_frame f next w r s
  obtain ⟨_, _, _, r4, _⟩ := Middleware_frame sample.recorder next w r []
  have hH : Header r.Context = ([], false) := by simp [Header, hh, Any.assertHeader]
  have hS : ResponseSize r.Context = (0, false) := by simp [ResponseSize, hs, Any.assertInt]
  have hv := finalCtx_values next w r
  have hne : finalCtx next w r ≠ r.Context := by
    intro e
    have := hv.2
    rw [e, hs] at this
    exact Any.noConfusion this
  refine ⟨rfl, h2, hH, hS, ?_, ?_, ?_, ?_, hne,
    ⟨finalCtx next w r, (served next w r).w.code, r⟩, ?_, rfl, hH, hS, rfl, hne⟩
  · rw [h4, h1]
  · rw [h5, h1]
  · rw [h1]; exact hv.1
  · rw [h1]; exact hv.2
  · rw [r4]; simp [sample.recorder]

theorem context_isolation_witness :
    Header (sample.req Context.Background).Context = ([], false)
      ∧ ResponseSize (sample.req Context.Background).Context = (0, false)
      ∧ (Middleware sample.recorder sample.threeWrites sample.sink
          (sample.req Context.Background) []).2.world.map sample.FinalizerCall.r
          = [sample.req Context.Background] := by
  have h := context_isolation sample.quiet sample.threeWrites sample.sink
    (sample.req Context.Background) () (by decide) (by decide)
  refine ⟨h.2.2.1, h.2.2.2.1, ?_⟩
  obtain ⟨c, hc, hr, _⟩ := h.2.2.2.2.2.2.2.2.2
  rw [hc]
  simp [hr]

/-- Claim C7: for every context, `Header` returns the zero value and `false` when
the value under `contextKeyResponseHeaders` is not an `http.Header`, in
particular when there is none, and `ResponseSize` returns 0 and `false` when
the value under `contextKeyResponseSize` is not an `int`, in particular when
there is none. Both accessors are total functions. -/
theorem accessors_fail_soft (ctx : Context) :
    ((∀ h, ctx.Value contextKeyResponseHeaders ≠ Any.Header h) → Header ctx = ([], false))
      ∧ ((∀ n, ctx.Value contextKeyResponseSize ≠ Any.int n) → ResponseSize ctx = (0, false))
      ∧ (ctx.Value contextKeyResponseHeaders = Any.nil → Header ctx = ([], false))
      ∧ (ctx.Value contextKeyResponseSize = Any.nil → ResponseSize ctx = (0, false)) := by
  refine ⟨?_, ?_, ?_, ?_⟩
  · intro h
    unfold Header
    cases hv : ctx.Value contextKeyResponseHeaders <;> simp_all [Any.assertHeader]
  · intro h
    unfold ResponseSize
    cases hv : ctx.Value contextKeyResponseSize <;> simp_all [Any.assertInt]
  · intro h; simp [Header, h, Any.assertHeader]
  · intro h; simp [ResponseSize, h, Any.assertInt]

theorem accessors_fail_soft_witness :
    Header (WithValue (WithValue Context.Background contextKeyResponseHeaders (Any.string "x"))
        contextKeyResponseSize (Any.int64 5)) = ([], false)
      ∧ ResponseSize (WithValue (WithValue Context.Background contextKeyResponseHeaders
        (Any.string "x")) contextKeyResponseSize (Any.int64 5)) = (0, false)
      ∧ Header Context.Background = ([], false)
      ∧ ResponseSize Context.Background = (0, false) :=
  ⟨(accessors_fail_soft _).1 (by
      intro h
      simp [WithValue, Context.Value, contextKeyResponseHeaders, contextKeyResponseSize]),
   (accessors_fail_soft _).2.1 (by
      intro n
      simp [WithValue, Context.Value, contextKeyResponseSize]),
   (accessors_fail_soft Context.Background).2.2.1 (by decide),
   (accessors_fail_soft Context.Background).2.2.2 (by decide)⟩

/-- Claim C8 fails as stated: a handler sets `Content-Length`, then the status,
then writes five bytes, on a sink that drops `Content-Length` from its header
map on every call; the handler never removes the header, yet `Header` on the
context the finalizer callback receives returns `true` with a map in which the
header the handler set is absent. -/
theorem handler_header_dropped_by_sink :
    (Middleware sample.recorder sample.withLength sample.strippingSink
        (sample.req Context.Background) []).2.trace
      = [http.Event.HeaderSet "Content-Length" ["5"], http.Event.WriteHeader 200,
         http.Event.Write (List.replicate 5 0) 5 none]
      ∧ (Middleware sample.recorder sample.withLength sample.strippingSink
          (sample.req Context.Background) []).2.world.map (fun c => Header c.ctx)
        = [([], true)]
      ∧ (Middleware sample.recorder sample.withLength sample.strippingSink
          (sample.req Context.Background) []).2.world.map
          (fun c => List.lookup "Content-Length" (Header c.ctx).1)
        = [none] := by
  decide

/-- Claim C8, amended: for every request handled by `Middleware`, the finalizer
callback is applied to a context on which `Header` returns `true` together with
the header map of the underlying sink as it stands when the handler has ended:
the map of the sink a direct run of the handler leaves, which is the sink's
initial map after every assignment and deletion the handler made and after
what the sink itself did to it on each call. The two context keys are distinct,
so the value attached second does not hide the first. Every key the handler
assigned is found with the values assigned, provided the handler neither
assigned nor deleted it afterwards and the sink leaves that key alone. -/
theorem Header_found_at_finalization {κ : Type} (f : ServerFinalizerFunc κ)
    (next : http.Handler) (w : http.ResponseWriter) (r : http.Request) (s : κ) :
    (Middleware f next w r s).2.world
        = (f (finalCtx next w r) (Middleware f next w r s).2.iw.code r s).2
      ∧ Header (finalCtx next w r) = ((Middleware f next w r s).2.iw.ResponseWriter.Header, true)
      ∧ (Middleware sample.recorder next w r []).2.world.map (fun c => Header c.ctx)
        = [((Middleware f next w r s).2.iw.ResponseWriter.Header, true)]
      ∧ (Middleware f next w r s).2.iw.ResponseWriter
        = ((next r).exec http.ResponseWriter.asWriter w).w
      ∧ (Middleware f next w r s).2.iw.ResponseWriter.Header
        = headerAfter w.touch w.events w.Header (Middleware f next w r s).2.trace
      ∧ contextKeyResponseHeaders ≠ contextKeyResponseSize
      ∧ (∀ (key : String) (vals : List String) (tr1 tr2 : List http.Event),
          (Middleware f next w r s).2.trace = tr1 ++ http.Event.HeaderSet key vals :: tr2 →
          (∀ e ∈ tr2, e ≠ http.Event.HeaderDel key ∧ ∀ v, e ≠ http.Event.HeaderSet key v) →
          (∀ evs h, List.lookup key (w.touch evs h) = List.lookup key h) →
          List.lookup key (Header (finalCtx next w r)).1 = some vals) := by
  obtain ⟨h1, h2, _, h4, _⟩ := Middleware_frame f next w r s
  obtain ⟨_, _, _, r4, _⟩ := Middleware_frame sample.recorder next w r []
  have hsk := served_sink next w r
  have hH := Header_finalCtx next w r
  refine ⟨?_, ?_, ?_, ?_, ?_, contextKeys_ne, ?_⟩
  · rw [h4, h1]
  · rw [h1]; exact hH
  · rw [r4, h1]; simp [sample.recorder, hH]
  · rw [h1]; exact hsk.1
  · rw [h1, h2]; exact hsk.2.2
  · intro key vals tr1 tr2 htr hclean hkeep
    rw [h2] at htr
    rw [hH]
    simp only []
    rw [hsk.2.2, htr]
    exact lookup_headerAfter_set w.touch key hkeep vals tr1 tr2 _ _ hclean

theorem Header_found_at_finalization_witness :
    List.lookup "Content-Length"
        (Header (finalCtx sample.withLength sample.sniffingSink
          (sample.req Context.Background))).1 = some ["5"]
      ∧ (Middleware sample.recorder sample.withLength sample.sniffingSink
          (sample.req Context.Background) []).2.world.map (fun c => Header c.ctx)
        = [([("Content-Type", ["text/plain; charset=utf-8"]), ("Content-Length", ["5"])], true)] :=
  ⟨(Header_found_at_finalization sample.quiet sample.withLength sample.sniffingSink
      (sample.req Context.Background) ()).2.2.2.2.2.2 "Content-Length" ["5"] []
      [http.Event.WriteHeader 200, http.Event.Write (List.replicate 5 0) 5 none]
      (by decide)
      (by
        intro e he
        simp only [List.mem_cons, List.mem_singleton, List.not_mem_nil, or_false] at he
        rcases he with rfl | rfl <;> simp)
      (by
        intro evs h
        simp only [sample.sniffingSink]
        cases List.lookup "Content-Type" h with
        | some v => rfl
        | none => exact lookup_Set_other h "Content-Type" "Content-Length" _ (by decide)),
   by decide⟩

/-- Claim C9 fails as stated: for a request without a `User-Agent` header the
record carries the key `user_agent` with the empty string as its value. -/
theorem LoggingFinalizer_logs_empty_user_agent :
    (HTTPLogger.LoggingFinalizer ⟨[]⟩ Context.Background 200
        ⟨"GET", "HTTP/1.1", "10.0.0.5:443", [], Context.Background⟩).logger
      = [[Any.string "method", Any.string "GET", Any.string "status", Any.int 200,
          Any.string "proto", Any.string "HTTP/1.1", Any.string "host", Any.string "10.0.0.5",
          Any.string "user_agent", Any.string ""]]
      ∧ (Any.string "user_agent", Any.string "")
        ∈ List.zip
            (keysOf (keyvalsOf Context.Background 200
              ⟨"GET", "HTTP/1.1", "10.0.0.5:443", [], Context.Background⟩))
            (valsOf (keyvalsOf Context.Background 200
              ⟨"GET", "HTTP/1.1", "10.0.0.5:443", [], Context.Background⟩)) := by
  decide

/-- Claim C9, amended: for every logger, context, status code and request,
`LoggingFinalizer` hands exactly one record to the logger; its keys are, in
order, method, status, proto, host, user_agent, then referer if and only if
the request's Referer is non-empty (with that non-empty value), then
response_size if and only if `ResponseSize` reports found (with that count).
The five leading keys are emitted whatever their values. For GET, 200,
HTTP/1.1, 10.0.0.5:443, test-agent, no Referer and a found count of 123 the
record is method GET, status 200, proto HTTP/1.1, host 10.0.0.5, user_agent
test-agent, response_size 123. -/
theorem LoggingFinalizer_record (l : HTTPLogger) (ctx : Context) (code : Int) (r : http.Request) :
    (l.LoggingFinalizer ctx code r).logger = l.logger ++ [keyvalsOf ctx code r]
      ∧ keyvalsOf ctx code r
        = [Any.string "method", Any.string r.Method, Any.string "status", Any.int code,
           Any.string "proto", Any.string r.Proto, Any.string "host", Any.string (hostOf r),
           Any.string "user_agent", Any.string r.UserAgent]
          ++ (if r.Referer ≠ "" then [Any.string "referer", Any.string r.Referer] else [])
          ++ (if (ResponseSize ctx).2 = true
              then [Any.string "response_size", Any.int (ResponseSize ctx).1] else [])
      ∧ keysOf (keyvalsOf ctx code r)
        = [Any.string "method", Any.string "status", Any.string "proto", Any.string "host",
           Any.string "user_agent"]
          ++ (if r.Referer ≠ "" then [Any.string "referer"] else [])
          ++ (if (ResponseSize ctx).2 = true then [Any.string "response_size"] else [])
      ∧ (Any.string "referer" ∈ keysOf (keyvalsOf ctx code r) ↔ r.Referer ≠ "")
      ∧ (Any.string "response_size" ∈ keysOf (keyvalsOf ctx code r)
          ↔ (ResponseSize ctx).2 = true)
      ∧ keyvalsOf (WithValue Context.Background contextKeyResponseSize (Any.int 123)) 200
          ⟨"GET", "HTTP/1.1", "10.0.0.5:443", [("User-Agent", ["test-agent"])],
            Context.Background⟩
        = [Any.string "method", Any.string "GET", Any.string "status", Any.int 200,
           Any.string "proto", Any.string "HTTP/1.1", Any.string "host", Any.string "10.0.0.5",
           Any.string "user_agent", Any.string "test-agent",
           Any.string "response_size", Any.int 123] := by
  exact ⟨rfl, keyvalsOf_eq ctx code r, keysOf_keyvalsOf ctx code r,
    referer_mem_keysOf ctx code r, response_size_mem_keysOf ctx code r, by decide⟩

/-- Claim C10: for every logger, context, status code and request,
`LoggingFinalizer` adds one record to the logger, and the value that record
carries under the key `host` is the host returned by `net.SplitHostPort` on
`RemoteAddr` when the split succeeds, and `RemoteAddr` itself, unchanged, when
it fails; an address `h:p` with neither colon nor bracket in `h` and `p` is
logged as `h`, and an address without a colon (a bare address, the empty
string) is logged unchanged. -/
theorem LoggingFinalizer_host (l : HTTPLogger) (ctx : Context) (code : Int) (r : http.Request) :
    (∃ kv, (l.LoggingFinalizer ctx code r).logger = l.logger ++ [kv]
        ∧ logged l ctx code r = [kv])
      ∧ (∀ host port, net.SplitHostPort r.RemoteAddr = .ok (host, port) →
          (logged l ctx code r).map (fieldOf "host") = [some (Any.string host)])
      ∧ (∀ e, net.SplitHostPort r.RemoteAddr = .error e →
          (logged l ctx code r).map (fieldOf "host") = [some (Any.string r.RemoteAddr)])
      ∧ (∀ h p : List Char, (':' ∉ h ∧ '[' ∉ h ∧ ']' ∉ h) → (':' ∉ p ∧ '[' ∉ p ∧ ']' ∉ p) →
          r.RemoteAddr = String.mk (h ++ ':' :: p) →
          (logged l ctx code r).map (fieldOf "host") = [some (Any.string (String.mk h))])
      ∧ (':' ∉ r.RemoteAddr.data →
          (logged l ctx code r).map (fieldOf "host") = [some (Any.string r.RemoteAddr)]) := by
  have hl : logged l ctx code r = [keyvalsOf ctx code r] := by
    simp [logged, HTTPLogger.LoggingFinalizer]
  have hf : fieldOf "host" (keyvalsOf ctx code r) = some (Any.string (hostOf r)) := by
    rw [keyvalsOf_eq]
    simp [fieldOf]
  refine ⟨⟨keyvalsOf ctx code r, rfl, hl⟩, ?_, ?_, ?_, ?_⟩
  · intro host port h
    rw [hl]
    simp [hf, hostOf, h]
  · intro e h
    rw [hl]
    simp [hf, hostOf, h]
  · intro h p hh hp hr
    rw [hl]
    simp [hf, hostOf, hr, SplitHostPort_join h p hh hp]
  · intro h
    rw [hl]
    simp [hf, hostOf, SplitHostPort_no_colon _ h]

theorem LoggingFinalizer_host_witness :
    (logged ⟨[]⟩ Context.Background 200
        ⟨"GET", "HTTP/1.1", "10.0.0.5:443", [], Context.Background⟩).map (fieldOf "host")
      = [some (Any.string "10.0.0.5")]
      ∧ (logged ⟨[]⟩ Context.Background 200
        ⟨"GET", "HTTP/1.1", "10.0.0.5", [], Context.Background⟩).map (fieldOf "host")
      = [some (Any.string "10.0.0.5")]
      ∧ (logged ⟨[]⟩ Context.Background 200
        ⟨"GET", "HTTP/1.1", "", [], Context.Background⟩).map (fieldOf "host")
      = [some (Any.string "")]
      ∧ (logged ⟨[]⟩ Context.Background 200
        ⟨"GET", "HTTP/1.1", "[::1]:8080", [], Context.Background⟩).map (fieldOf "host")
      = [some (Any.string "::1")]
      ∧ (logged ⟨[]⟩ Context.Background 200
        ⟨"GET", "HTTP/1.1", "::1", [], Context.Background⟩).map (fieldOf "host")
      = [some (Any.string "::1")] :=
  ⟨(LoggingFinalizer_host ⟨[]⟩ Context.Background 200
      ⟨"GET", "HTTP/1.1", "10.0.0.5:443", [], Context.Background⟩).2.2.2.1
      "10.0.0.5".data "443".data (by decide) (by decide) (by decide),
   (LoggingFinalizer_host ⟨[]⟩ Context.Background 200
      ⟨"GET", "HTTP/1.1", "10.0.0.5", [], Context.Background⟩).2.2.2.2 (by decide),
   (LoggingFinalizer_host ⟨[]⟩ Context.Background 200
      ⟨"GET", "HTTP/1.1", "", [], Context.Background⟩).2.2.2.2 (by decide),
   (LoggingFinalizer_host ⟨[]⟩ Context.Background 200
      ⟨"GET", "HTTP/1.1", "[::1]:8080", [], Context.Background⟩).2.1 "::1" "8080" (by rfl),
   (LoggingFinalizer_host ⟨[]⟩ Context.Background 200
      ⟨"GET", "HTTP/1.1", "::1", [], Context.Background⟩).2.2.1
      net.AddrError.tooManyColons (by rfl)⟩

end Go
